import Mathlib

/-!
# Verification of the ticket-env pricing engine and reward scorer

Shallow embedding of the pricing engine (`src/pricing.py`) and the
standalone reward scorer (`src/reward_func.py`) of the ticket-env
repository.  Python floats are modelled as rationals (`ℚ`), Python ints
as `ℤ` (bin counts, which the spec requires positive, as `ℕ`), dicts as
total functions from concert names, and concert names as lists of
characters.  Exceptions (a `KeyError` during a day simulation) are
modelled by an `Option` result paired with the state as mutated up to
the failure point.
-/

/-- Concert identity: a name, modelled as a list of characters. -/
abbrev Concert := List Char

/-- Pointwise update of a dictionary modelled as a total function. -/
def updFn {β : Type} (f : Concert → β) (k : Concert) (v : β) : Concert → β :=
  fun x => if x = k then v else f x

/-- Python `max(a, b)` on numbers (kernel-reducible form). -/
def maxQ (a b : ℚ) : ℚ := if b ≤ a then a else b

/-- Python `min(a, b)` on numbers (kernel-reducible form). -/
def minQ (a b : ℚ) : ℚ := if a ≤ b then a else b

/-- Minimum of a price list, as Python `min` on a non-empty list
(`0` on the empty list, which the source never passes). -/
def listMin : List ℚ → ℚ
  | [] => 0
  | x :: xs => xs.foldl minQ x

/-- Maximum of a price list, as Python `max` on a non-empty list. -/
def listMax : List ℚ → ℚ
  | [] => 0
  | x :: xs => xs.foldl maxQ x

/-- Insert into a sorted list (helper for `sortQ`). -/
def insertQ (x : ℚ) : List ℚ → List ℚ
  | [] => [x]
  | y :: ys => if x ≤ y then x :: y :: ys else y :: insertQ x ys

/-- Insertion sort on rationals (model of Python `sorted`). -/
def sortQ : List ℚ → List ℚ
  | [] => []
  | x :: xs => insertQ x (sortQ xs)

/-- Model of `statistics.median`: middle element of the sorted list when the
length is odd, mean of the two middle elements when even. -/
def medianQ (l : List ℚ) : ℚ :=
  let s := sortQ l
  let n := l.length
  if n % 2 = 1 then s.getD (n / 2) 0
  else (s.getD (n / 2 - 1) 0 + s.getD (n / 2) 0) / 2

/-- Round a rational to the nearest integer, ties to even
(Python's `round` rule). -/
def roundHalfEven (q : ℚ) : ℤ :=
  let f := ⌊q⌋
  let r := q - f
  if r < 1 / 2 then f
  else if 1 / 2 < r then f + 1
  else if f % 2 = 0 then f else f + 1

/-- Python `round(x, 2)`: round to two decimal places, ties to even. -/
def round2 (q : ℚ) : ℚ := (roundHalfEven (q * 100) : ℚ) / 100

/-- Model of `np.clip(x, lo, hi)` for `lo ≤ hi`: clamp `x` into `[lo, hi]`. -/
def clipQ (x lo hi : ℚ) : ℚ := minQ (maxQ x lo) hi

/-- Model of `np.linspace(lo, hi, numBins + 1)`: the `numBins + 1` evenly spaced
bin edges from `lo` to `hi` (a single point `[lo]` when `numBins = 0`,
since `ℚ` division by zero is zero). -/
def binEdges (lo hi : ℚ) (numBins : ℕ) : List ℚ :=
  (List.range (numBins + 1)).map
    (fun i : ℕ => lo + (i : ℚ) * (hi - lo) / (numBins : ℚ))

/-- Model of `np.digitize(x, edges, right=True)` for increasing `edges`: the
number of edges strictly below `x`, i.e. the index `i` with
`edges[i-1] < x ≤ edges[i]`. -/
def digitizeRight (x : ℚ) (edges : List ℚ) : ℕ :=
  edges.countP (fun b => decide (b < x))

/-- The raw (unclamped) bin index both scorers compute:
digitize the clipped purchase price into the evenly spaced edges of
the history's `[min, max]` range. -/
def binIndexRaw (history : List ℚ) (purchased : ℚ) (numBins : ℕ) : ℕ :=
  digitizeRight (clipQ purchased (listMin history) (listMax history))
    (binEdges (listMin history) (listMax history) numBins)

/-- The clamped bin index of `reward_func.py`:
`bin_index = max(1, min(num_bins, bin_index))`. -/
def clampedBinIndex (history : List ℚ) (purchased : ℚ) (numBins : ℕ) : ℕ :=
  max 1 (min numBins (binIndexRaw history purchased numBins))

/-- The base reward of `src/pricing.py` (lines 168-172):
`num_bins - bin_index` with the raw (unclamped) digitize result,
floored at 0. -/
def baseRewardPricing (history : List ℚ) (purchased : ℚ) (numBins : ℕ) : ℚ :=
  maxQ ((numBins : ℚ) - binIndexRaw history purchased numBins) 0

/-- The base reward of `src/reward_func.py` (lines 34-39):
`num_bins - bin_index` with the clamped bin index, floored at 0. -/
def baseRewardFunc (history : List ℚ) (purchased : ℚ) (numBins : ℕ) : ℚ :=
  maxQ ((numBins : ℚ) - clampedBinIndex history purchased numBins) 0

/-- Model of `ConcertPricing.calculate_reward` of `src/pricing.py` (lines
146-182), with the two state reads (`self.price_history[concert_name]`
and `self.user_preferences.get(concert_name, 50)`) passed as the
`history` and `preference` arguments: empty history gives 0; a
degenerate history (min = max) gives `num_bins - 1`; otherwise the
base reward `num_bins - bin_index` (no clamping of the bin index) is
floored at 0, adjusted by `+0.5` when preference > 70 or `-1.5` when
preference < 30, and floored at 0 again. -/
def calcRewardPricing (history : List ℚ) (preference : ℤ) (purchased : ℚ)
    (numBins : ℕ) : ℚ :=
  if history = [] then 0
  else
    let minPrice := listMin history
    let maxPrice := listMax history
    if minPrice = maxPrice then (numBins : ℚ) - 1
    else
      let reward := baseRewardPricing history purchased numBins
      let reward :=
        if preference > 70 then reward + 1 / 2
        else if preference < 30 then reward - 3 / 2
        else reward
      maxQ reward 0

/-- Model of `calculate_reward` of `src/reward_func.py` (lines 3-54): returns
the triple (reward, bin index, bin edges).  Empty history gives
`(0, none, [])`; a degenerate history gives
`(num_bins - 1, 1, num_bins + 1 copies of min)`; otherwise the bin
index is clamped into `[1, num_bins]`, the base reward
`num_bins - bin_index` is floored at 0, then adjusted by `+0.25` when
preference > 50 or `-1.5` when preference < 30, then, if still at or
below `threshold`, by `+0.75` when preference > 50 and `-1.0`
otherwise — with no final floor at 0. -/
def calcRewardFunc (history : List ℚ) (purchased : ℚ) (preference : ℤ)
    (numBins : ℕ) (threshold : ℚ) : ℚ × Option ℕ × List ℚ :=
  if history = [] then (0, none, [])
  else
    let minPrice := listMin history
    let maxPrice := listMax history
    if minPrice = maxPrice then
      ((numBins : ℚ) - 1, some 1, List.replicate (numBins + 1) minPrice)
    else
      let binIndex := clampedBinIndex history purchased numBins
      let reward := baseRewardFunc history purchased numBins
      let reward :=
        if preference > 50 then reward + 1 / 4
        else if preference < 30 then reward - 3 / 2
        else reward
      let reward :=
        if reward ≤ threshold then
          if preference > 50 then reward + 3 / 4 else reward - 1
        else reward
      (reward, some binIndex, binEdges minPrice maxPrice numBins)

/-- The engine state of `ConcertPricing.__init__` (`src/pricing.py`
lines 7-18): dicts become total functions over concert names, with
`concerts` recording the key order of `base_prices` (the iteration
order of the simulation loop).  `currentDate` and concert dates are
whole-day numbers, matching the day granularity of the source. -/
structure EngineState where
  concerts : List Concert
  basePrices : Concert → ℚ
  totalTickets : Concert → ℤ
  soldTickets : Concert → ℤ
  concertDates : Concert → ℤ
  currentDate : ℤ
  priceHistory : Concert → List ℚ
  userPreferences : Concert → ℤ

/-- Model of `_time_multiplier` (`src/pricing.py` lines 21-28). -/
def timeMultiplier (s : EngineState) (c : Concert) : ℚ :=
  let daysBefore := s.concertDates c - s.currentDate
  if daysBefore > 30 then 85 / 100
  else if daysBefore ≥ 7 then 1
  else 125 / 100

/-- Model of `_inventory_multiplier` (`src/pricing.py` lines 30-39). -/
def inventoryMultiplier (s : EngineState) (c : Concert) : ℚ :=
  let remainingRatio : ℚ := ((s.totalTickets c - s.soldTickets c : ℤ) : ℚ) /
    ((s.totalTickets c : ℤ) : ℚ)
  if remainingRatio > 1 / 2 then 1
  else if remainingRatio > 1 / 5 then 115 / 100
  else 135 / 100

/-- Model of `_traffic_multiplier` (`src/pricing.py` lines 41-47). -/
def trafficMultiplier (webTraffic : ℤ) : ℚ :=
  if webTraffic < 30 then 95 / 100
  else if webTraffic < 70 then 1
  else 12 / 10

/-- Model of `_preference_multiplier` (`src/pricing.py` lines 49-56). -/
def preferenceMultiplier (s : EngineState) (c : Concert) : ℚ :=
  let preference := s.userPreferences c
  if preference < 50 then 9 / 10
  else if preference < 70 then 1
  else 115 / 100

/-- The raw rounded product of `get_price` (`src/pricing.py` line 66):
`round(base * t_factor * i_factor * w_factor * p_factor, 2)`. -/
def rawPrice (s : EngineState) (c : Concert) (webTraffic : ℤ) : ℚ :=
  round2 (s.basePrices c * timeMultiplier s c * inventoryMultiplier s c *
    trafficMultiplier webTraffic * preferenceMultiplier s c)

/-- Model of `get_price` (`src/pricing.py` lines 59-75): the raw rounded
product, raised to the median of the price history when the history is
non-empty. -/
def getPrice (s : EngineState) (c : Concert) (webTraffic : ℤ) : ℚ :=
  if s.priceHistory c = [] then rawPrice s c webTraffic
  else maxQ (rawPrice s c webTraffic) (medianQ (s.priceHistory c))

/-- Model of `sell_ticket` (`src/pricing.py` lines 121-124): clamp the request
to the remaining capacity, then add it to the sold count. -/
def sellTicket (s : EngineState) (c : Concert) (num : ℤ) : EngineState :=
  let remaining := s.totalTickets c - s.soldTickets c
  let clamped := min num remaining
  { s with soldTickets := updFn s.soldTickets c (s.soldTickets c + clamped) }

/-- Lower-case a name, as Python `str.lower` on ASCII names. -/
def lowerChars (s : List Char) : List Char := s.map Char.toLower

/-- Does `pat` start `text`? (helper for the substring test). -/
def beginsWith : List Char → List Char → Bool
  | [], _ => true
  | _ :: _, [] => false
  | p :: ps, t :: ts => p = t && beginsWith ps ts

/-- Python's `in` on strings: does `pat` occur contiguously in
`text`? -/
def occursIn (pat : List Char) : List Char → Bool
  | [] => beginsWith pat []
  | t :: ts => beginsWith pat (t :: ts) || occursIn pat ts

/-- The keyword test of `_parse_user_prompt` (`src/pricing.py` line
135): `concert.lower() in prompt_lower`. -/
def promptMatches (prompt c : Concert) : Bool :=
  occursIn (lowerChars c) (lowerChars prompt)

/-- Model of `_parse_user_prompt` (`src/pricing.py` lines 127-143): the first
concert (in key order) whose lowered name occurs in the lowered prompt
is selected; every tracked concert's preference becomes 95 if it is
the selected one and 40 otherwise (concerts outside the tracked list
keep their old preference). -/
def parseUserPrompt (s : EngineState) (prompt : Concert) : EngineState :=
  let selected := s.concerts.find? (promptMatches prompt)
  { s with
    userPreferences := fun c =>
      if c ∈ s.concerts then (if selected = some c then 95 else 40)
      else s.userPreferences c }

/-- One row of the day snapshot built by `simulate_purchase`
(`src/pricing.py` lines 101-110). -/
structure DayEntry where
  price : ℚ
  traffic : ℤ
  preference : ℤ
  soldToday : ℤ
  totalSold : ℤ
  remaining : ℤ
  floorPrice : ℚ
  reward : ℚ

/-- Model of `random.randint(0, max(1, traffic // 10))` of `src/pricing.py`
line 95 is modelled by reducing the caller-supplied draw modulo
`max 1 (traffic // 10) + 1`, so exactly the in-range outcomes are
reachable. -/
def ticketsSoldToday (t : ℤ) (draw : ℤ) : ℤ :=
  Int.emod draw (max 1 (Int.fdiv t 10) + 1)

/-- The state mutations of one iteration of the `simulate_purchase`
loop (`src/pricing.py` lines 91-96): append the day's price to the
concert's history, then apply the random ticket sale. -/
def dayStateAfter (s : EngineState) (c : Concert) (t : ℤ) (draw : ℤ) :
    EngineState :=
  let price := getPrice s c t
  let s1 := { s with
    priceHistory := updFn s.priceHistory c (s.priceHistory c ++ [price]) }
  sellTicket s1 c (ticketsSoldToday t draw)

/-- The snapshot row assembled for one concert (`src/pricing.py` lines
98-110): the reward is computed from the updated history (which now
ends in the day's price) and the current preference. -/
def dayEntryFor (s : EngineState) (c : Concert) (t : ℤ) (draw : ℤ) :
    DayEntry :=
  let price := getPrice s c t
  let s2 := dayStateAfter s c t draw
  { price := price
    traffic := t
    preference := s2.userPreferences c
    soldToday := ticketsSoldToday t draw
    totalSold := s2.soldTickets c
    remaining := s2.totalTickets c - s2.soldTickets c
    floorPrice := medianQ (s2.priceHistory c)
    reward := calcRewardPricing (s2.priceHistory c) (s2.userPreferences c)
      price 5 }

/-- The per-concert loop of `simulate_purchase` (`src/pricing.py`
lines 89-110), processing the given concert list in order while
threading the engine state.  A concert missing from the traffic dict
(`web_traffic_dict[concert]` raising `KeyError`) yields `none`
together with the state as mutated so far — Python's exception leaves
`self` partially updated. -/
def simDayLoop (traffic : Concert → Option ℤ) (draws : Nat → ℤ) :
    EngineState → Nat → List Concert →
    Option (List (Concert × DayEntry)) × EngineState
  | s, _, [] => (some [], s)
  | s, i, c :: rest =>
    match traffic c with
    | none => (none, s)
    | some t =>
      match simDayLoop traffic draws (dayStateAfter s c t (draws i))
          (i + 1) rest with
      | (none, s3) => (none, s3)
      | (some l, s3) => (some ((c, dayEntryFor s c t (draws i)) :: l), s3)

/-- Model of `simulate_purchase` (`src/pricing.py` lines 78-119): parse the
prompt into preferences, run the per-concert loop, and on success
advance the date by one day.  On failure the loop's partially mutated
state is returned unchanged and no day snapshot is produced. -/
def simulatePurchase (s : EngineState) (prompt : Concert)
    (traffic : Concert → Option ℤ) (draws : Nat → ℤ) :
    Option (List (Concert × DayEntry)) × EngineState :=
  let s0 := parseUserPrompt s prompt
  match simDayLoop traffic draws s0 0 s0.concerts with
  | (none, s1) => (none, s1)
  | (some l, s1) => (some l, { s1 with currentDate := s1.currentDate + 1 })

/-- A small concrete engine used to instantiate theorems: two tracked
concerts `"a"` and `"b"`, concert `"a"` with an existing price history
`[10, 20]`, concert `"b"` with none. -/
def sampleState : EngineState where
  concerts := [['a'], ['b']]
  basePrices := fun c => if c = ['a'] then 100 else 200
  totalTickets := fun _ => 100
  soldTickets := fun _ => 0
  concertDates := fun _ => 10
  currentDate := 0
  priceHistory := fun c => if c = ['a'] then [10, 20] else []
  userPreferences := fun _ => 50

/-- A freshly constructed engine (empty price histories everywhere),
as after `ConcertPricing.__init__`. -/
def freshState : EngineState where
  concerts := [['a'], ['b']]
  basePrices := fun _ => 100
  totalTickets := fun _ => 100
  soldTickets := fun _ => 0
  concertDates := fun _ => 10
  currentDate := 0
  priceHistory := fun _ => []
  userPreferences := fun _ => 50

/-! ## Order helper lemmas for the Python `min`/`max` model -/

theorem maxQ_eq_max (a b : ℚ) : maxQ a b = max a b := by
  rw [maxQ, max_comm, max_def]

theorem minQ_eq_min (a b : ℚ) : minQ a b = min a b := by
  rw [minQ, min_def]

theorem minQ_le_left (a b : ℚ) : minQ a b ≤ a := by
  rw [minQ_eq_min]; exact min_le_left a b

theorem minQ_le_right (a b : ℚ) : minQ a b ≤ b := by
  rw [minQ_eq_min]; exact min_le_right a b

theorem le_maxQ_left (a b : ℚ) : a ≤ maxQ a b := by
  rw [maxQ_eq_max]; exact le_max_left a b

theorem le_maxQ_right (a b : ℚ) : b ≤ maxQ a b := by
  rw [maxQ_eq_max]; exact le_max_right a b

theorem maxQ_mono_left {a b : ℚ} (c : ℚ) (h : a ≤ b) : maxQ a c ≤ maxQ b c := by
  rw [maxQ_eq_max, maxQ_eq_max]; exact max_le_max h le_rfl

theorem minQ_mono_left {a b : ℚ} (c : ℚ) (h : a ≤ b) : minQ a c ≤ minQ b c := by
  rw [minQ_eq_min, minQ_eq_min]; exact min_le_min h le_rfl

/-- Clipping (`np.clip`) is monotone in the clipped value. -/
theorem clipQ_mono {p q : ℚ} (lo hi : ℚ) (h : p ≤ q) :
    clipQ p lo hi ≤ clipQ q lo hi := by
  unfold clipQ
  exact minQ_mono_left hi (maxQ_mono_left lo h)

/-- C1 counterexample: the standalone scorer of `reward_func.py` can
return a negative final reward — history `[1, 2]`, purchase at the
historical maximum `2`, preference `10`, `num_bins = 10`, threshold
`2`: base reward 0, preference penalty −1.5, threshold penalty −1,
final reward −2.5 < 0. -/
theorem rewardFunc_negative_counterexample :
    (calcRewardFunc [1, 2] 2 10 10 2).1 < 0 := by
  norm_num [calcRewardFunc, baseRewardFunc, clampedBinIndex, binIndexRaw,
    digitizeRight, clipQ, minQ, maxQ, listMin, listMax, binEdges,
    List.range_succ, List.countP_cons, List.countP_nil, List.cons_ne_nil]

/-- C1 (amended): the reward of `ConcertPricing.calculate_reward` in
`pricing.py` is floored at 0 after all preference adjustments, hence
never negative, for every history, preference, purchased price and
positive `num_bins`; the standalone `reward_func.py` scorer applies no
final floor and can return a negative reward. -/
theorem pricingReward_nonneg (history : List ℚ) (preference : ℤ)
    (purchased : ℚ) (numBins : ℕ) (h : 1 ≤ numBins) :
    0 ≤ calcRewardPricing history preference purchased numBins := by
  have h1 : (1 : ℚ) ≤ (numBins : ℚ) := by exact_mod_cast h
  simp only [calcRewardPricing]
  split_ifs
  · exact le_rfl
  · linarith
  · exact le_maxQ_right _ 0
  · exact le_maxQ_right _ 0
  · exact le_maxQ_right _ 0

/-- C1 witness: the pricing reward at a concrete input is nonnegative. -/
theorem pricingReward_nonneg_witness : 0 ≤ calcRewardPricing [1, 3] 60 2 5 :=
  pricingReward_nonneg [1, 3] 60 2 5 (by norm_num)

/-- C4: with a non-empty degenerate history (all prices equal, i.e.
min = max), both reward implementations return exactly `num_bins − 1`,
for every purchased price, preference and threshold — no preference or
threshold adjustment is applied. -/
theorem degenerate_history_reward (history : List ℚ) (preference : ℤ)
    (purchased : ℚ) (numBins : ℕ) (threshold : ℚ) (h1 : history ≠ [])
    (h2 : listMin history = listMax history) :
    calcRewardPricing history preference purchased numBins =
      (numBins : ℚ) - 1 ∧
    (calcRewardFunc history purchased preference numBins threshold).1 =
      (numBins : ℚ) - 1 := by
  constructor <;> simp [calcRewardPricing, calcRewardFunc, h1, h2]

/-- C4 witness: the degenerate history `[7, 7]` gives reward
`num_bins − 1 = 4` in both implementations, at purchased price 100 and
preference 10. -/
theorem degenerate_history_reward_witness :
    calcRewardPricing [7, 7] 10 100 5 = (5 : ℚ) - 1 ∧
    (calcRewardFunc [7, 7] 100 10 5 2).1 = (5 : ℚ) - 1 :=
  degenerate_history_reward [7, 7] 10 100 5 2 (by simp)
    (by norm_num [listMin, listMax, minQ, maxQ])

/-- C9: the two reward implementations are not extensionally equal —
on the shared input history `[1, 3]`, purchased price 2, preference
60, `num_bins = 5` (threshold 2 for the standalone scorer, which is
its default), `reward_func.py` returns 2.25 (preference 60 > 50 earns
its +0.25 bonus) while `pricing.py` returns 2 (60 is below its bonus
threshold 70). -/
theorem reward_implementations_differ :
    (calcRewardFunc [1, 3] 2 60 5 2).1 ≠ calcRewardPricing [1, 3] 60 2 5 := by
  norm_num [calcRewardFunc, baseRewardFunc, clampedBinIndex,
    calcRewardPricing, baseRewardPricing, binIndexRaw, digitizeRight, clipQ,
    minQ, maxQ, listMin, listMax, binEdges, List.range_succ,
    List.countP_cons, List.countP_nil, List.cons_ne_nil]

/-- Every bin edge is at least the lower end of the range. -/
theorem binEdges_ge_lo {lo hi : ℚ} (numBins : ℕ) (h : lo ≤ hi) :
    ∀ b ∈ binEdges lo hi numBins, lo ≤ b := by
  intro b hb
  rw [binEdges] at hb
  obtain ⟨i, _, hbe⟩ := List.mem_map.mp hb
  rw [← hbe]
  have hnn : 0 ≤ (i : ℚ) * (hi - lo) / (numBins : ℚ) :=
    div_nonneg (mul_nonneg (Nat.cast_nonneg i) (sub_nonneg.mpr h))
      (Nat.cast_nonneg numBins)
  linarith

/-- A purchase at the lower end of the range digitizes to index 0:
no edge is strictly below `lo`. -/
theorem binIndexRaw_at_min (history : List ℚ) (numBins : ℕ)
    (h : listMin history ≤ listMax history) :
    binIndexRaw history (listMin history) numBins = 0 := by
  unfold binIndexRaw
  have hclip : clipQ (listMin history) (listMin history) (listMax history) =
      listMin history := by
    unfold clipQ
    rw [maxQ_eq_max, max_self, minQ_eq_min, min_eq_left h]
  rw [hclip]
  unfold digitizeRight
  rw [List.countP_eq_zero]
  intro b hb
  simp only [decide_eq_true_eq, not_lt]
  exact binEdges_ge_lo numBins h b hb

/-- C2 counterexample: `pricing.py` never clamps its digitize
result.  With history `[1, 2]`, `num_bins = 5` and a purchase at the
historical minimum 1, the bin index is 0 — outside `[1, 5]` — and the
reward is `num_bins = 5` (neutral preference 50), not
`num_bins − 1 = 4`. -/
theorem pricing_binIndex_zero_counterexample :
    binIndexRaw [1, 2] 1 5 = 0 ∧ calcRewardPricing [1, 2] 50 1 5 = 5 := by
  constructor <;>
    norm_num [calcRewardPricing, baseRewardPricing, binIndexRaw,
      digitizeRight, clipQ, minQ, maxQ, listMin, listMax, binEdges,
      List.range_succ, List.countP_cons, List.countP_nil, List.cons_ne_nil,
      List.foldl_cons, List.foldl_nil]

/-- C2 (amended): in `reward_func.py` the clamped bin index always
lies in `[1, num_bins]`, the base reward `num_bins − bin_index` lies
in `[0, num_bins − 1]`, and a purchase at the historical minimum of a
spread history lands in bin 1 with base reward `num_bins − 1`.  (In
`pricing.py` the digitize result is not clamped and a purchase at the
minimum gets bin index 0 and base reward `num_bins` — see the
counterexample.) -/
theorem clampedBinIndex_bounds (history : List ℚ) (purchased : ℚ)
    (numBins : ℕ) (h : 1 ≤ numBins) :
    (1 ≤ clampedBinIndex history purchased numBins ∧
      clampedBinIndex history purchased numBins ≤ numBins) ∧
    (0 ≤ baseRewardFunc history purchased numBins ∧
      baseRewardFunc history purchased numBins ≤ (numBins : ℚ) - 1) ∧
    (listMin history < listMax history →
      clampedBinIndex history (listMin history) numBins = 1 ∧
      baseRewardFunc history (listMin history) numBins = (numBins : ℚ) - 1) := by
  have hb1 : 1 ≤ clampedBinIndex history purchased numBins := by
    unfold clampedBinIndex; omega
  have hb2 : clampedBinIndex history purchased numBins ≤ numBins := by
    unfold clampedBinIndex; omega
  have hq1 : (1 : ℚ) ≤ (clampedBinIndex history purchased numBins : ℚ) := by
    exact_mod_cast hb1
  have hq2 : (clampedBinIndex history purchased numBins : ℚ) ≤ (numBins : ℚ) := by
    exact_mod_cast hb2
  refine ⟨⟨hb1, hb2⟩, ⟨?_, ?_⟩, ?_⟩
  · exact le_maxQ_right _ 0
  · rw [baseRewardFunc, maxQ_eq_max]
    have hnb : (1 : ℚ) ≤ (numBins : ℚ) := by exact_mod_cast h
    exact max_le (by linarith) (by linarith)
  · intro hlt
    have hmin : clampedBinIndex history (listMin history) numBins = 1 := by
      unfold clampedBinIndex
      rw [binIndexRaw_at_min history numBins hlt.le]
      omega
    refine ⟨hmin, ?_⟩
    rw [baseRewardFunc, hmin, maxQ_eq_max]
    have hnb : (1 : ℚ) ≤ (numBins : ℚ) := by exact_mod_cast h
    rw [max_eq_left (by push_cast; linarith)]
    push_cast
    ring

/-- C2 witness: concrete instance of the clamped-bin-index bounds at
history `[1, 2]`, purchase `3/2`, `num_bins = 5`, and of bin 1 at the
historical minimum. -/
theorem clampedBinIndex_bounds_witness :
    1 ≤ clampedBinIndex [1, 2] (3 / 2) 5 ∧
    clampedBinIndex [1, 2] (3 / 2) 5 ≤ 5 ∧
    0 ≤ baseRewardFunc [1, 2] (3 / 2) 5 ∧
    clampedBinIndex [1, 2] (listMin [1, 2]) 5 = 1 :=
  ⟨(clampedBinIndex_bounds [1, 2] (3 / 2) 5 (by norm_num)).1.1,
   (clampedBinIndex_bounds [1, 2] (3 / 2) 5 (by norm_num)).1.2,
   (clampedBinIndex_bounds [1, 2] (3 / 2) 5 (by norm_num)).2.1.1,
   ((clampedBinIndex_bounds [1, 2] (3 / 2) 5 (by norm_num)).2.2
     (by norm_num [listMin, listMax, minQ, maxQ, List.foldl_cons,
       List.foldl_nil])).1⟩

/-- Digitizing (`np.digitize` with `right=True`) is monotone in the price. -/
theorem digitizeRight_mono {x y : ℚ} (edges : List ℚ) (h : x ≤ y) :
    digitizeRight x edges ≤ digitizeRight y edges := by
  unfold digitizeRight
  induction edges with
  | nil => simp
  | cons b rest ih =>
    simp only [List.countP_cons]
    by_cases hbx : b < x
    · rw [decide_eq_true hbx, decide_eq_true (lt_of_lt_of_le hbx h),
        if_pos rfl]
      exact Nat.add_le_add_right ih 1
    · rw [decide_eq_false hbx, if_neg (by simp)]
      by_cases hby : b < y
      · rw [decide_eq_true hby, if_pos rfl]
        omega
      · rw [decide_eq_false hby, if_neg (by simp)]
        omega

/-- The raw bin index is monotone in the purchased price. -/
theorem binIndexRaw_mono (history : List ℚ) (numBins : ℕ) {p q : ℚ}
    (h : p ≤ q) :
    binIndexRaw history p numBins ≤ binIndexRaw history q numBins := by
  unfold binIndexRaw
  exact digitizeRight_mono _ (clipQ_mono _ _ h)

/-- C5: for a fixed non-empty history with spread (min ≠ max) and
fixed `num_bins`, a strictly lower purchased price never gets a
strictly lower base reward: the base reward of both implementations is
antitone in the purchased price. -/
theorem baseReward_antitone (history : List ℚ) (numBins : ℕ) (p1 p2 : ℚ)
    (_hne : history ≠ []) (_hspread : listMin history ≠ listMax history)
    (hp : p1 < p2) :
    baseRewardPricing history p2 numBins ≤ baseRewardPricing history p1 numBins ∧
    baseRewardFunc history p2 numBins ≤ baseRewardFunc history p1 numBins := by
  have hidx := binIndexRaw_mono history numBins hp.le
  constructor
  · unfold baseRewardPricing
    apply maxQ_mono_left
    have hcast : (binIndexRaw history p1 numBins : ℚ) ≤
        (binIndexRaw history p2 numBins : ℚ) := by exact_mod_cast hidx
    linarith
  · unfold baseRewardFunc
    apply maxQ_mono_left
    have hclamp : clampedBinIndex history p1 numBins ≤
        clampedBinIndex history p2 numBins := by
      unfold clampedBinIndex; omega
    have hcast : (clampedBinIndex history p1 numBins : ℚ) ≤
        (clampedBinIndex history p2 numBins : ℚ) := by exact_mod_cast hclamp
    linarith

/-- C5 witness: at history `[1, 3]`, `num_bins = 5`, prices `1 < 2`,
the base rewards compare as claimed. -/
theorem baseReward_antitone_witness :
    baseRewardPricing [1, 3] 2 5 ≤ baseRewardPricing [1, 3] 1 5 ∧
    baseRewardFunc [1, 3] 2 5 ≤ baseRewardFunc [1, 3] 1 5 :=
  baseReward_antitone [1, 3] 5 1 2 (by simp)
    (by norm_num [listMin, listMax, minQ, maxQ, List.foldl_cons,
      List.foldl_nil])
    (by norm_num)

/-- Selling tickets never touches the ticket totals. -/
theorem sellTicket_totalTickets (s : EngineState) (c : Concert) (num : ℤ) :
    (sellTicket s c num).totalTickets = s.totalTickets := rfl

/-- One `sell_ticket` call preserves `sold ≤ total` for every
concert. -/
theorem sellTicket_preserves_le (s : EngineState) (c : Concert) (num : ℤ)
    (h : ∀ d, s.soldTickets d ≤ s.totalTickets d) :
    ∀ e, (sellTicket s c num).soldTickets e ≤
      (sellTicket s c num).totalTickets e := by
  intro e
  simp only [sellTicket, updFn]
  by_cases he : e = c
  · simp only [if_pos he, he, if_true]
    have h1 := h c
    have h2 := min_le_right num (s.totalTickets c - s.soldTickets c)
    linarith
  · simp only [if_neg he]
    exact h e

/-- After any fold of `sell_ticket` operations, each sold count is
bounded by the (unchanged) total. -/
theorem foldl_sellTicket_sold_le (ops : List (Concert × ℤ)) :
    ∀ (s : EngineState), (∀ d, s.soldTickets d ≤ s.totalTickets d) →
    ∀ d, (ops.foldl (fun st p => sellTicket st p.1 p.2) s).soldTickets d ≤
      s.totalTickets d := by
  induction ops with
  | nil => intro s h d; exact h d
  | cons op rest ih =>
    intro s h d
    simp only [List.foldl_cons]
    exact ih (sellTicket s op.1 op.2)
      (sellTicket_preserves_le s op.1 op.2 h) d

/-- C7: ticket conservation.  Starting from zero sold tickets (with
nonnegative totals), any sequence of `sell_ticket` operations keeps
`sold_tickets[c] ≤ total_tickets[c]`; and a single request for more
tickets than remain increments the sold count by exactly the remaining
amount (silent clamping, no overselling). -/
theorem sellTicket_conservation :
    (∀ (s : EngineState) (ops : List (Concert × ℤ)) (c : Concert),
      (∀ d, s.soldTickets d = 0) → (∀ d, 0 ≤ s.totalTickets d) →
      (ops.foldl (fun st p => sellTicket st p.1 p.2) s).soldTickets c ≤
        s.totalTickets c) ∧
    (∀ (s : EngineState) (c : Concert) (num : ℤ),
      s.totalTickets c - s.soldTickets c < num →
      (sellTicket s c num).soldTickets c =
        s.soldTickets c + (s.totalTickets c - s.soldTickets c)) := by
  constructor
  · intro s ops c hz ht
    exact foldl_sellTicket_sold_le ops s (fun d => by rw [hz d]; exact ht d) c
  · intro s c num h
    simp only [sellTicket, updFn, if_pos rfl, if_true]
    rw [min_eq_right h.le]

/-- C7 witness: from the sample engine (0 sold, 100 total), the
sequence sell 7 then sell 200 keeps the sold count within the total,
and a direct request of 200 > 100 remaining adds exactly the 100
remaining. -/
theorem sellTicket_conservation_witness :
    (([((['a'] : Concert), (7 : ℤ)), (['a'], 200)].foldl
        (fun st p => sellTicket st p.1 p.2) sampleState).soldTickets ['a'] ≤
      sampleState.totalTickets ['a']) ∧
    (sellTicket sampleState ['a'] 200).soldTickets ['a'] =
      sampleState.soldTickets ['a'] +
        (sampleState.totalTickets ['a'] - sampleState.soldTickets ['a']) :=
  ⟨sellTicket_conservation.1 sampleState [(['a'], 7), (['a'], 200)] ['a']
      (fun _ => rfl) (fun _ => by norm_num [sampleState]),
   sellTicket_conservation.2 sampleState ['a'] 200
      (by norm_num [sampleState])⟩

/-- If a predicate holds exactly once on a list, `find?` returns the
unique element satisfying it, wherever it sits. -/
theorem find_eq_of_countP_one {p : Concert → Bool} :
    ∀ (l : List Concert) (c : Concert), c ∈ l → p c = true →
      l.countP p = 1 → l.find? p = some c := by
  intro l
  induction l with
  | nil => intro c hc; simp at hc
  | cons a t ih =>
    intro c hc hpc hcount
    by_cases hpa : p a = true
    · have hct : t.countP p = 0 := by
        rw [List.countP_cons_of_pos _ _ hpa] at hcount
        omega
      rcases List.mem_cons.mp hc with rfl | hmem
      · exact List.find?_cons_of_pos _ hpa
      · exact absurd hpc (by simpa using List.countP_eq_zero.mp hct c hmem)
    · have hfa : (a :: t).find? p = t.find? p :=
        List.find?_cons_of_neg _ (by simpa using hpa)
      have hcount' : t.countP p = 1 := by
        rw [List.countP_cons_of_neg _ _ (by simpa using hpa)] at hcount
        exact hcount
      have hmem : c ∈ t := by
        rcases List.mem_cons.mp hc with rfl | hmem
        · exact absurd hpc hpa
        · exact hmem
      rw [hfa]
      exact ih c hmem hpc hcount'

/-- C8: if the prompt contains (case-insensitively) exactly one known
concert name, `_parse_user_prompt` sets that concert's preference to
95 and every other tracked concert's to 40, and the outcome does not
depend on the order of the concert list (any permutation yields the
same preferences). -/
theorem parsePrompt_unique_selection (s : EngineState) (prompt c : Concert)
    (hc : c ∈ s.concerts) (hpc : promptMatches prompt c = true)
    (huniq : s.concerts.countP (promptMatches prompt) = 1) :
    (parseUserPrompt s prompt).userPreferences c = 95 ∧
    (∀ d ∈ s.concerts, d ≠ c →
      (parseUserPrompt s prompt).userPreferences d = 40) ∧
    (∀ l' : List Concert, s.concerts.Perm l' → ∀ d : Concert,
      (parseUserPrompt { s with concerts := l' } prompt).userPreferences d =
        (parseUserPrompt s prompt).userPreferences d) := by
  have hfind : s.concerts.find? (promptMatches prompt) = some c :=
    find_eq_of_countP_one s.concerts c hc hpc huniq
  refine ⟨?_, ?_, ?_⟩
  · simp [parseUserPrompt, hfind, hc]
  · intro d hd hdc
    simp [parseUserPrompt, hfind, hd]
    exact fun heq => absurd heq.symm hdc
  · intro l' hperm d
    have hc' : c ∈ l' := hperm.mem_iff.mp hc
    have huniq' : l'.countP (promptMatches prompt) = 1 := by
      rw [← hperm.countP_eq]
      exact huniq
    have hfind' : l'.find? (promptMatches prompt) = some c :=
      find_eq_of_countP_one l' c hc' hpc huniq'
    by_cases hd : d ∈ s.concerts
    · have hd' : d ∈ l' := hperm.mem_iff.mp hd
      simp [parseUserPrompt, hfind, hfind', hd, hd']
    · have hd' : d ∉ l' := fun hmem => hd (hperm.mem_iff.mpr hmem)
      simp [parseUserPrompt, hfind, hfind', hd, hd']

/-- C8 witness: the prompt `"B"` (upper case) matches exactly the
tracked concert `"b"`: it gets preference 95 and `"a"` gets 40. -/
theorem parsePrompt_unique_selection_witness :
    (parseUserPrompt sampleState ['B']).userPreferences ['b'] = 95 ∧
    (parseUserPrompt sampleState ['B']).userPreferences ['a'] = 40 :=
  ⟨(parsePrompt_unique_selection sampleState ['B'] ['b'] (by decide)
      (by decide) (by decide)).1,
   (parsePrompt_unique_selection sampleState ['B'] ['b'] (by decide)
      (by decide) (by decide)).2.1 ['a'] (by decide) (by decide)⟩

/-- C3: once a concert has price history, `get_price` returns at
least the median of that history (the raw product is replaced by
`max(raw, median)`); with no history the raw rounded product is
returned unchanged. -/
theorem getPrice_median_floor (s : EngineState) (c : Concert) (traffic : ℤ) :
    (s.priceHistory c ≠ [] →
      medianQ (s.priceHistory c) ≤ getPrice s c traffic) ∧
    (s.priceHistory c = [] → getPrice s c traffic = rawPrice s c traffic) := by
  constructor
  · intro h
    rw [getPrice, if_neg h]
    exact le_maxQ_right _ _
  · intro h
    rw [getPrice, if_pos h]

/-- C3 witness: in the sample engine, concert `"a"` (history
`[10, 20]`) is priced at or above its median, and concert `"b"` (no
history) gets exactly the raw rounded product. -/
theorem getPrice_median_floor_witness :
    medianQ (sampleState.priceHistory ['a']) ≤ getPrice sampleState ['a'] 50 ∧
    getPrice sampleState ['b'] 50 = rawPrice sampleState ['b'] 50 :=
  ⟨(getPrice_median_floor sampleState ['a'] 50).1 (by decide),
   (getPrice_median_floor sampleState ['b'] 50).2 (by decide)⟩

/-- The per-concert loop mutation never touches the simulated date. -/
theorem dayStateAfter_currentDate (s : EngineState) (c : Concert)
    (t draw : ℤ) : (dayStateAfter s c t draw).currentDate = s.currentDate :=
  rfl

/-- The loop never touches the simulated date; only the wrapper
advances it, and only on success. -/
theorem simDayLoop_currentDate (traffic : Concert → Option ℤ)
    (draws : Nat → ℤ) :
    ∀ (l : List Concert) (s : EngineState) (i : Nat),
      (simDayLoop traffic draws s i l).2.currentDate = s.currentDate := by
  intro l
  induction l with
  | nil => intro s i; rfl
  | cons c rest ih =>
    intro s i
    simp only [simDayLoop]
    split
    · rfl
    · next t _ =>
      split
      · next s3 hrec =>
        have hdate := ih (dayStateAfter s c t (draws i)) (i + 1)
        rw [hrec] at hdate
        exact hdate
      · next l2 s3 hrec =>
        have hdate := ih (dayStateAfter s c t (draws i)) (i + 1)
        rw [hrec] at hdate
        exact hdate

/-- C6 counterexample: `simulate_purchase` is not all-or-nothing.
On a fresh two-concert engine with the traffic dict containing only
concert `"a"`, the day fails (missing key for `"b"`), yet `"a"`'s
price history has already been extended. -/
theorem simulatePurchase_partial_mutation :
    (simulatePurchase freshState []
      (fun c => if c = ['a'] then some 50 else none) (fun _ => 0)).1 =
        none ∧
    (simulatePurchase freshState []
      (fun c => if c = ['a'] then some 50 else none) (fun _ => 0)).2.priceHistory
        ['a'] ≠ freshState.priceHistory ['a'] := by
  constructor
  · simp [simulatePurchase, simDayLoop, dayStateAfter, sellTicket, updFn,
      parseUserPrompt, freshState]
  · simp [simulatePurchase, simDayLoop, dayStateAfter, sellTicket, updFn,
      parseUserPrompt, freshState]

/-- C6 (amended): `simulate_purchase` is not atomic — on a failure
partway (a concert missing from the traffic dictionary) the mutations
of concerts processed earlier remain committed (see the
counterexample) — but `current_date` is only advanced after a fully
successful day, so on any failing invocation the date is unchanged. -/
theorem simulatePurchase_date_unchanged_on_failure (s : EngineState)
    (prompt : Concert) (traffic : Concert → Option ℤ) (draws : Nat → ℤ)
    (h : (simulatePurchase s prompt traffic draws).1 = none) :
    (simulatePurchase s prompt traffic draws).2.currentDate =
      s.currentDate := by
  simp only [simulatePurchase] at h ⊢
  split at h
  · next s1 heq =>
    have hdate := simDayLoop_currentDate traffic draws
      (parseUserPrompt s prompt).concerts (parseUserPrompt s prompt) 0
    rw [heq] at hdate
    exact hdate
  · next l2 s1 _ => simp at h

/-- C6 witness: on the concrete failing day of the counterexample,
the date is unchanged. -/
theorem simulatePurchase_date_unchanged_witness :
    (simulatePurchase freshState []
      (fun c => if c = ['a'] then some 50 else none)
      (fun _ => 0)).2.currentDate = freshState.currentDate :=
  simulatePurchase_date_unchanged_on_failure freshState []
    (fun c => if c = ['a'] then some 50 else none) (fun _ => 0)
    (by simp [simulatePurchase, simDayLoop, dayStateAfter, sellTicket,
      updFn, parseUserPrompt, freshState])

/-- A one-element history is degenerate (min = max), so the pricing
reward is `num_bins − 1 = 4` at the hardcoded `num_bins = 5`,
whatever the purchase price and preference. -/
theorem calcRewardPricing_singleton (x : ℚ) (p : ℤ) (purchased : ℚ) :
    calcRewardPricing [x] p purchased 5 = 4 := by
  norm_num [calcRewardPricing, listMin, listMax]

/-- One loop iteration appends exactly the day's price to its own
concert's history. -/
theorem dayStateAfter_priceHistory_self (s : EngineState) (c : Concert)
    (t draw : ℤ) :
    (dayStateAfter s c t draw).priceHistory c =
      s.priceHistory c ++ [getPrice s c t] := by
  simp [dayStateAfter, sellTicket, updFn]

/-- One loop iteration leaves other concerts' histories unchanged. -/
theorem dayStateAfter_priceHistory_other (s : EngineState) (c d : Concert)
    (t draw : ℤ) (h : d ≠ c) :
    (dayStateAfter s c t draw).priceHistory d = s.priceHistory d := by
  simp [dayStateAfter, sellTicket, updFn, h]

/-- On a concert whose history was empty before the iteration, the
snapshot row's reward is exactly 4: the appended day price makes a
one-element (degenerate) history. -/
theorem dayEntryFor_reward_fresh (s : EngineState) (c : Concert)
    (t draw : ℤ) (h : s.priceHistory c = []) :
    (dayEntryFor s c t draw).reward = 4 := by
  simp only [dayEntryFor]
  rw [dayStateAfter_priceHistory_self, h, List.nil_append]
  exact calcRewardPricing_singleton _ _ _

/-- Running the day loop over distinct concerts with empty histories
and full traffic coverage succeeds, covers exactly those concerts in
order, and records reward 4 for every one of them. -/
theorem simDayLoop_fresh (traffic : Concert → Option ℤ) (draws : Nat → ℤ) :
    ∀ (l : List Concert) (s : EngineState) (i : Nat), l.Nodup →
      (∀ c ∈ l, s.priceHistory c = []) →
      (∀ c ∈ l, (traffic c).isSome = true) →
      ∃ res s', simDayLoop traffic draws s i l = (some res, s') ∧
        res.map Prod.fst = l ∧ ∀ e ∈ res, e.2.reward = 4 := by
  intro l
  induction l with
  | nil => intro s i _ _ _; exact ⟨[], s, rfl, rfl, by simp⟩
  | cons c rest ih =>
    intro s i hnd hfresh htr
    obtain ⟨t, htc⟩ :=
      Option.isSome_iff_exists.mp (htr c (List.mem_cons_self c rest))
    have hndr : rest.Nodup := List.Nodup.of_cons hnd
    have hcnr : c ∉ rest := (List.nodup_cons.mp hnd).1
    have hfresh' : ∀ d ∈ rest,
        (dayStateAfter s c t (draws i)).priceHistory d = [] := by
      intro d hd
      rw [dayStateAfter_priceHistory_other s c d t (draws i)
        (fun he => hcnr (he ▸ hd))]
      exact hfresh d (List.mem_cons_of_mem c hd)
    have htr' : ∀ d ∈ rest, (traffic d).isSome = true :=
      fun d hd => htr d (List.mem_cons_of_mem c hd)
    obtain ⟨res, s', hrec, hmap, hrew⟩ :=
      ih (dayStateAfter s c t (draws i)) (i + 1) hndr hfresh' htr'
    refine ⟨(c, dayEntryFor s c t (draws i)) :: res, s', ?_, ?_, ?_⟩
    · simp only [simDayLoop, htc, hrec]
    · simp [hmap]
    · intro e he
      rcases List.mem_cons.mp he with rfl | he2
      · exact dayEntryFor_reward_fresh s c t (draws i)
          (hfresh c (List.mem_cons_self c rest))
      · exact hrew e he2

/-- C10: on a freshly constructed engine (all price histories empty,
distinct tracked concerts) with every concert present in the traffic
dict, the first `simulate_purchase` succeeds and its snapshot records
reward `num_bins − 1 = 4` for every tracked concert, for any prompt
and any random-draw outcome: the day's price is appended before
scoring, so each one-element history is degenerate. -/
theorem first_day_reward_is_four (s : EngineState) (prompt : Concert)
    (traffic : Concert → Option ℤ) (draws : Nat → ℤ)
    (hnd : s.concerts.Nodup)
    (hfresh : ∀ c ∈ s.concerts, s.priceHistory c = [])
    (htr : ∀ c ∈ s.concerts, (traffic c).isSome = true) :
    (simulatePurchase s prompt traffic draws).1.isSome = true ∧
    ∀ res, (simulatePurchase s prompt traffic draws).1 = some res →
      res.map Prod.fst = s.concerts ∧ ∀ e ∈ res, e.2.reward = 4 := by
  obtain ⟨res, s', hloop, hmap, hrew⟩ :=
    simDayLoop_fresh traffic draws (parseUserPrompt s prompt).concerts
      (parseUserPrompt s prompt) 0 hnd hfresh htr
  constructor
  · simp only [simulatePurchase]
    rw [hloop]
    simp
  · intro res2 hres2
    simp only [simulatePurchase] at hres2
    rw [hloop] at hres2
    simp only [Option.some.injEq] at hres2
    obtain rfl : res = res2 := hres2
    exact ⟨hmap, hrew⟩

/-- C10 witness: on the concrete fresh engine with uniform traffic
50, the first simulated day succeeds (so its rewards are all 4 by the
theorem). -/
theorem first_day_reward_is_four_witness :
    (simulatePurchase freshState [] (fun _ => some 50)
      (fun _ => 0)).1.isSome = true :=
  (first_day_reward_is_four freshState [] (fun _ => some 50) (fun _ => 0)
    (by decide) (fun _ _ => rfl) (fun _ _ => rfl)).1
